import Mathlib

/-!
A shallow embedding of the Websitedownloaderpersonal crawler/downloader core
(src/downloader/downloader.py and src/downloader/crawler.py), with theorems
checking the specification's statements against the embedded code.
-/

namespace WebDl

/-! ## URL parsing (the fields of urllib.parse.urlparse the code reads) -/

def isSchemeChar (c : Char) : Bool :=
  c.isAlpha || c.isDigit || c = '+' || c = '-' || c = '.'

/-- Split off a URL scheme: the remainder after "scheme:" when the text before
    the first ':' is a valid scheme, otherwise the whole string. -/
def dropScheme (cs : List Char) : List Char :=
  match cs.findIdx? (· = ':') with
  | none => cs
  | some i =>
    let sch := cs.take i
    match sch with
    | [] => cs
    | c :: _ => if c.isAlpha && sch.all isSchemeChar then cs.drop (i + 1) else cs

def notNetlocEnd (c : Char) : Bool := c ≠ '/' && c ≠ '?' && c ≠ '#'

def notQueryStart (c : Char) : Bool := c ≠ '?' && c ≠ '#'

structure ParsedUrl where
  netloc : String
  path : String
deriving DecidableEq, Repr

/-- urllib.parse.urlparse restricted to netloc and path. -/
def urlparse (url : String) : ParsedUrl :=
  let rest := dropScheme url.data
  if rest.take 2 = ['/', '/'] then
    let r := rest.drop 2
    let n := r.takeWhile notNetlocEnd
    let after := r.drop n.length
    ⟨⟨n⟩, ⟨after.takeWhile notQueryStart⟩⟩
  else
    ⟨"", ⟨rest.takeWhile notQueryStart⟩⟩

def netloc (url : String) : String := (urlparse url).netloc

/-! ## Saved-page filename derivation (downloader.py, fetch, lines 155-173) -/

/-- parsed.netloc.replace(":", "_") -/
def safeHost (host : String) : String :=
  ⟨host.data.map (fun c => if c = ':' then '_' else c)⟩

/-- Python str.strip("/"): remove leading and trailing slashes. -/
def stripSlashes (s : String) : String :=
  ⟨((s.data.dropWhile (· = '/')).reverse.dropWhile (· = '/')).reverse⟩

/-- parsed.path.strip("/") or "index" -/
def safePath (path : String) : String :=
  let s := stripSlashes path
  if s = "" then "index" else s

/-- The filename derived from the URL when no custom filename is given:
    append ".html" exactly when the stripped path contains no dot. -/
def derivedFilename (url : String) : String :=
  let p := urlparse url
  let h := safeHost p.netloc
  let sp := safePath p.path
  if sp.data.contains '.' then h ++ "_" ++ sp else h ++ "_" ++ sp ++ ".html"

/-- Final path component (the pathlib name of a relative path). -/
def lastComponent (s : String) : String :=
  ⟨(s.data.reverse.takeWhile (· ≠ '/')).reverse⟩

/-- pathlib.PurePath.suffix: the extension of the final component, nonempty
    only when the last dot sits strictly inside the name. -/
def pathSuffix (s : String) : String :=
  let name := (lastComponent s).data
  let idxs := (List.range name.length).filter (fun i => name.get? i = some '.')
  match idxs.getLast? with
  | some i => if 0 < i && i + 1 < name.length then ⟨name.drop i⟩ else ""
  | none => ""

/-- Output filename for an explicit custom filename (fetch, lines 156-160):
    ".html" is appended when the path has no pathlib suffix. -/
def customFilename (custom : String) : String :=
  if pathSuffix custom = "" then custom ++ ".html" else custom

/-- The filename (relative to the output directory) that fetch saves to. -/
def savedName (url : String) : Option String → String
  | some c => customFilename c
  | none => derivedFilename url

/-- From the claim's words (C6): ".html" appended iff the derived name
    host_path as a whole has no extension already. -/
def claimDerivedFilename (url : String) : String :=
  let p := urlparse url
  let base := safeHost p.netloc ++ "_" ++ safePath p.path
  if pathSuffix base = "" then base ++ ".html" else base

/-- The amended derivation: ".html" is appended iff the stripped path segment
    contains no dot (the code tests only the path segment, never the host). -/
def amendedDerivedFilename (url : String) : String :=
  let p := urlparse url
  let base := safeHost p.netloc ++ "_" ++ safePath p.path
  if (safePath p.path).data.contains '.' then base else base ++ ".html"

/-! ## Static-mode fetch retry loop (downloader.py, fetch, lines 135-153) -/

/-- min(2 ** attempt, 16), the backoff before the next attempt. -/
def backoff (attempt : Nat) : Nat := min (2 ^ attempt) 16

/-- One run of the static retry loop. outcomes a is the transport outcome of
    GET attempt a (error models requests.RequestException). Returns the final
    outcome, the backoff sleeps performed, and the number of GET attempts
    issued; none models falling off the end of range(8) (the for-else raise
    RuntimeError branch). -/
def fetchStaticFuel (outcomes : Nat → Except String String) :
    Nat → Nat → Option (Except String String × List Nat × Nat)
  | _, 0 => none
  | a, fuel + 1 =>
    match outcomes a with
    | .ok c => some (.ok c, [], 1)
    | .error e =>
      if a = 7 then some (.error e, [], 1)
      else
        match fetchStaticFuel outcomes (a + 1) fuel with
        | some (res, sleeps, gets) => some (res, backoff a :: sleeps, gets + 1)
        | none => none

/-- The retry loop as the code runs it: attempts 0 through 7. -/
def fetchStatic (outcomes : Nat → Except String String) :
    Option (Except String String × List Nat × Nat) :=
  fetchStaticFuel outcomes 0 8

theorem fetchStaticFuel_spec (outcomes : Nat → Except String String) :
    ∀ fuel a, a + fuel = 8 → 0 < fuel →
    ∃ res sleeps gets,
      fetchStaticFuel outcomes a fuel = some (res, sleeps, gets) ∧
      gets = sleeps.length + 1 ∧ gets ≤ fuel ∧
      (∀ i, ∀ h : i < sleeps.length, sleeps.get ⟨i, h⟩ = backoff (a + i)) ∧
      ((∀ b, b < 8 → ∃ e, outcomes b = Except.error e) →
        ∃ e, outcomes 7 = Except.error e ∧ res = Except.error e) := by
  intro fuel
  induction fuel with
  | zero => intro a _ h; omega
  | succ f ih =>
    intro a ha _
    match hout : outcomes a with
    | .ok c =>
      refine ⟨.ok c, [], 1, ?_, rfl, by omega, ?_, ?_⟩
      · simp [fetchStaticFuel, hout]
      · intro i h; simp at h
      · intro hall
        obtain ⟨e, he⟩ := hall a (by omega)
        rw [hout] at he; cases he
    | .error e =>
      by_cases h7 : a = 7
      · subst h7
        refine ⟨.error e, [], 1, ?_, rfl, by omega, ?_, ?_⟩
        · simp [fetchStaticFuel, hout]
        · intro i h; simp at h
        · intro _; exact ⟨e, hout, rfl⟩
      · have hf : 0 < f := by omega
        obtain ⟨res, sleeps, gets, heq, hlen, hle, hget, hlast⟩ :=
          ih (a + 1) (by omega) hf
        refine ⟨res, backoff a :: sleeps, gets + 1, ?_, by simp [hlen], by omega, ?_, hlast⟩
        · simp [fetchStaticFuel, hout, h7, heq]
        · intro i h
          match i with
          | 0 => simp
          | j + 1 =>
            simp only [List.get_cons_succ]
            have := hget j (by simpa using h)
            rw [this]; congr 1; omega

/-- C5: in static mode fetch issues at most 8 GET attempts; after a failed
    attempt a (a < 7) it sleeps min(2^a, 16) seconds; if all 8 attempts fail
    it surfaces the last transport error, never empty content. -/
theorem c5_static_retry (outcomes : Nat → Except String String) :
    ∃ res sleeps gets,
      fetchStatic outcomes = some (res, sleeps, gets) ∧
      gets ≤ 8 ∧ gets = sleeps.length + 1 ∧
      (∀ i, ∀ h : i < sleeps.length, sleeps.get ⟨i, h⟩ = min (2 ^ i) 16) ∧
      ((∀ a, a < 8 → ∃ e, outcomes a = Except.error e) →
        ∃ e, outcomes 7 = Except.error e ∧ res = Except.error e) := by
  obtain ⟨res, sleeps, gets, heq, hlen, hle, hget, hlast⟩ :=
    fetchStaticFuel_spec outcomes 8 0 rfl (by omega)
  exact ⟨res, sleeps, gets, heq, hle, hlen,
    fun i h => by simpa [backoff] using hget i h, hlast⟩

/-- Witness for C5 at a concrete always-failing outcome function. -/
theorem c5_static_retry_witness :
    ∃ res sleeps gets,
      fetchStatic (fun _ => Except.error "boom") = some (res, sleeps, gets) ∧
      gets ≤ 8 ∧ gets = sleeps.length + 1 ∧
      (∀ i, ∀ h : i < sleeps.length, sleeps.get ⟨i, h⟩ = min (2 ^ i) 16) ∧
      ((∀ a, a < 8 → ∃ e, (fun _ => Except.error "boom" : Nat → Except String String) a = Except.error e) →
        ∃ e, (fun _ => Except.error "boom" : Nat → Except String String) 7 = Except.error e ∧
          res = Except.error e) :=
  c5_static_retry (fun _ => Except.error "boom")

/-- C6 fails as stated: for https://example.com/ the derived name
    "example.com_index" has the nonempty pathlib suffix ".com_index" (so it
    does have an extension), yet the code still appends ".html". -/
theorem c6_counterexample :
    derivedFilename "https://example.com/" = "example.com_index.html" ∧
    pathSuffix "example.com_index" = ".com_index" ∧
    claimDerivedFilename "https://example.com/" = "example.com_index" := by
  decide

/-- C6 amended: ".html" is appended to the derived name iff the stripped path
    segment contains no dot; an explicit custom filename gets ".html" appended
    iff its pathlib suffix is empty. -/
theorem c6_filename_derivation (url custom : String) (_hc : custom ≠ "") :
    derivedFilename url = amendedDerivedFilename url ∧
    (pathSuffix custom = "" → savedName url (some custom) = custom ++ ".html") ∧
    (pathSuffix custom ≠ "" → savedName url (some custom) = custom) ∧
    savedName url none = derivedFilename url := by
  refine ⟨?_, ?_, ?_, rfl⟩
  · unfold derivedFilename amendedDerivedFilename
    by_cases h : (safePath (urlparse url).path).data.contains '.' <;>
      simp [h, String.append_assoc]
  · intro h; simp [savedName, customFilename, h]
  · intro h; simp [savedName, customFilename, h]

/-- Witness for the amended C6 at a concrete URL and custom filename. -/
theorem c6_filename_derivation_witness :
    ("page" : String) ≠ "" ∧
    (derivedFilename "https://example.com/a/b" = amendedDerivedFilename "https://example.com/a/b" ∧
      (pathSuffix "page" = "" → savedName "https://example.com/a/b" (some "page") = "page" ++ ".html") ∧
      (pathSuffix "page" ≠ "" → savedName "https://example.com/a/b" (some "page") = "page") ∧
      savedName "https://example.com/a/b" none = derivedFilename "https://example.com/a/b") :=
  ⟨by decide, c6_filename_derivation "https://example.com/a/b" "page" (by decide)⟩

/-! ## robots.txt gate (downloader.py, lines 48-65, over urllib.robotparser) -/

/-- Outcome of urllib fetching origin/robots.txt. content carries the parsed
    rule set as a can_fetch predicate (the robots-policy capability);
    httpError is an urllib HTTPError with its status code, handled inside
    RobotFileParser.read; netError is any other exception (connection
    failure, timeout), which read propagates. -/
inductive RobotsFetch where
  | content (rules : String → String → Bool)
  | httpError (code : Nat)
  | netError

/-- The RobotFileParser state the code observes: disallow_all, allow_all,
    last_checked (zero until parse runs), and the parsed rules. -/
structure RobotsParser where
  disallowAll : Bool
  allowAll : Bool
  lastChecked : Bool
  rules : String → String → Bool

/-- A freshly constructed urllib.robotparser.RobotFileParser. -/
def RobotsParser.fresh : RobotsParser :=
  { disallowAll := false, allowAll := false, lastChecked := false
    rules := fun _ _ => true }

/-- RobotFileParser.read: 401/403 set disallow_all, other 4xx set allow_all,
    success parses (setting last_checked); a non-HTTP error propagates. -/
def RobotsParser.read (p : RobotsParser) : RobotsFetch → Except Unit RobotsParser
  | .content rules => .ok { p with lastChecked := true, rules := rules }
  | .httpError code =>
    if code = 401 ∨ code = 403 then .ok { p with disallowAll := true }
    else if 400 ≤ code ∧ code < 500 then .ok { p with allowAll := true }
    else .ok p
  | .netError => .error ()

/-- RobotFileParser.can_fetch: deny when disallow_all, allow when allow_all,
    and deny everything while the file has not been read (last_checked zero). -/
def RobotsParser.canFetch (p : RobotsParser) (agent url : String) : Bool :=
  if p.disallowAll then false
  else if p.allowAll then true
  else if !p.lastChecked then false
  else p.rules agent url

/-- Downloader._get_robots_parser: read the origin's robots.txt, swallowing
    any exception and returning the parser as it stands. -/
def getRobotsParser (o : RobotsFetch) : RobotsParser :=
  match RobotsParser.fresh.read o with
  | .ok p => p
  | .error _ => RobotsParser.fresh

/-- Downloader.allowed_by_robots for a URL whose origin's robots fetch has
    outcome o. -/
def allowedByRobots (respectRobots : Bool) (o : RobotsFetch)
    (agent url : String) : Bool :=
  if !respectRobots then true
  else (getRobotsParser o).canFetch agent url

/-- C2 fails as stated: with respect_robots on and a robots.txt fetch that
    raises (network error or timeout), allowed_by_robots returns false, not
    true — the unread parser denies every URL. -/
theorem c2_counterexample :
    allowedByRobots true RobotsFetch.netError "ua" "https://example.com/page"
      = false := by
  decide

/-- C2 amended: when the robots.txt fetch raises, the gate fails closed — the
    swallowed exception leaves the parser unread and can_fetch denies every
    agent and URL, so allowed_by_robots returns false. -/
theorem c2_robots_fail_closed (agent url : String) :
    allowedByRobots true RobotsFetch.netError agent url = false := by
  simp [allowedByRobots, getRobotsParser, RobotsParser.read, RobotsParser.fresh,
    RobotsParser.canFetch]

/-! ## File system model and the fetch save/rewrite pipeline
(downloader.py, fetch lines 155-194, _download_asset lines 219-247,
_rewrite_assets_and_save lines 249-282) -/

/-- A flat file system: association list of path to text content; writing
    overwrites. -/
abbrev FileSys := List (String × String)

def fsWrite (fs : FileSys) (path content : String) : FileSys :=
  (path, content) :: fs.filter (fun e => e.1 ≠ path)

def fsGet (fs : FileSys) (path : String) : Option String :=
  match fs.find? (fun e => e.1 = path) with
  | some e => some e.2
  | none => none

/-- The markup tree of the parse capability: a flat list of tags with
    attributes, as BeautifulSoup.find_all traverses them. -/
structure Tag where
  name : String
  attrs : List (String × String)
deriving DecidableEq, Repr

abbrev Doc := List Tag

def Tag.getAttr (t : Tag) (k : String) : Option String :=
  match t.attrs.find? (fun a => a.1 = k) with
  | some a => some a.2
  | none => none

def Tag.setAttr (t : Tag) (k v : String) : Tag :=
  { t with attrs := (k, v) :: t.attrs.filter (fun a => a.1 ≠ k) }

/-- str(soup): serialize the tag list back to markup. -/
def serializeAttr (a : String × String) : String :=
  " " ++ a.1 ++ "=\"" ++ a.2 ++ "\""

def serializeTag (t : Tag) : String :=
  "<" ++ t.name ++ (t.attrs.map serializeAttr).foldl (· ++ ·) "" ++ ">"

def serializeDoc (d : Doc) : String :=
  (d.map serializeTag).foldl (· ++ ·) ""

/-- urllib.parse.urljoin restricted to the cases the downloader meets:
    absolute references, scheme-relative, root-relative, and bare relative
    references against the base URL's directory. -/
def urljoin (base ref : String) : String :=
  if ref = "" then base
  else if (dropScheme ref.data).length ≠ ref.data.length then ref
  else if ref.data.take 2 = ['/', '/'] then
    ⟨base.data.takeWhile (· ≠ ':')⟩ ++ ":" ++ ref
  else
    let p := urlparse base
    let scheme : String := ⟨base.data.takeWhile (· ≠ ':')⟩
    if ref.data.take 1 = ['/'] then scheme ++ "://" ++ p.netloc ++ ref
    else
      let dir := ⟨(p.path.data.reverse.dropWhile (· ≠ '/')).reverse⟩
      scheme ++ "://" ++ p.netloc ++ dir ++ ref

/-- os.path.basename(parsed.path) or "unnamed". -/
def assetBasename (path : String) : String :=
  let b := lastComponent path
  if b = "" then "unnamed" else b

/-- Target path of a downloaded asset:
    outputDir/assets/safe_host/basename. -/
def assetTarget (outputDir url : String) : String :=
  let p := urlparse url
  outputDir ++ "/assets/" ++ safeHost p.netloc ++ "/" ++ assetBasename p.path

/-- Downloader._download_asset: robots-denied returns none without error; a
    transport failure (after the tenacity retries) raises; success streams the
    body to the asset target. assetFetch is the transport capability. -/
def downloadAsset (outputDir : String) (robotsAllow : String → Bool)
    (assetFetch : String → Except Unit String) (url : String) (fs : FileSys) :
    Except Unit (FileSys × Option String) :=
  if !robotsAllow url then .ok (fs, none)
  else
    match assetFetch url with
    | .error e => .error e
    | .ok body =>
      let target := assetTarget outputDir url
      .ok (fsWrite fs target body, some target)

/-- os.path.relpath(local, start=output_dir) with backslashes normalized:
    the asset target always extends the output dir, so the relative path is
    the remainder after "outputDir/". -/
def relToOutput (outputDir localPath : String) : String :=
  ⟨localPath.data.drop (outputDir.length + 1)⟩

/-- Whether a tag is an asset reference the code rewrites (img[src],
    script[src], link[rel="stylesheet"][href]), with the attribute used. -/
def assetAttr (t : Tag) : Option String :=
  if t.name = "img" ∧ (t.getAttr "src").isSome then some "src"
  else if t.name = "script" ∧ (t.getAttr "src").isSome then some "src"
  else if t.name = "link" ∧ (t.getAttr "href").isSome ∧
      t.getAttr "rel" = some "stylesheet" then some "href"
  else none

/-- save_and_replace for one tag: download the joined URL and, on success,
    point the attribute at the local copy; any exception is swallowed and the
    tag is left alone. -/
def saveAndReplace (outputDir : String) (robotsAllow : String → Bool)
    (assetFetch : String → Except Unit String) (baseUrl : String)
    (fs : FileSys) (t : Tag) : FileSys × Tag :=
  match assetAttr t with
  | none => (fs, t)
  | some attr =>
    match t.getAttr attr with
    | none => (fs, t)
    | some orig =>
      let full := urljoin baseUrl orig
      match downloadAsset outputDir robotsAllow assetFetch full fs with
      | .error _ => (fs, t)
      | .ok (fs2, none) => (fs2, t)
      | .ok (fs2, some localPath) =>
        (fs2, t.setAttr attr (relToOutput outputDir localPath))

/-- Downloader._rewrite_assets_and_save: walk the tags, downloading and
    rewriting each asset reference, and return the rewritten markup string. -/
def rewriteAssetsAndSave (outputDir : String) (robotsAllow : String → Bool)
    (assetFetch : String → Except Unit String) (doc : Doc) (baseUrl : String)
    (fs : FileSys) : FileSys × String :=
  let step := fun (acc : FileSys × Doc) (t : Tag) =>
    let (fs2, t2) := saveAndReplace outputDir robotsAllow assetFetch baseUrl acc.1 t
    (fs2, acc.2 ++ [t2])
  let (fs2, doc2) := doc.foldl step (fs, [])
  (fs2, serializeDoc doc2)

/-- The non-rewriting asset pass (fetch lines 185-190): download each asset,
    swallowing failures; the markup is untouched. -/
def downloadAssetsOnly (outputDir : String) (robotsAllow : String → Bool)
    (assetFetch : String → Except Unit String) (assets : List String)
    (fs : FileSys) : FileSys :=
  assets.foldl (fun acc u =>
    match downloadAsset outputDir robotsAllow assetFetch u acc with
    | .ok (fs2, _) => fs2
    | .error _ => acc) fs

/-- Downloader._parse_assets: the deduplicated joined URLs of the asset
    references in the markup. -/
def parseAssets (doc : Doc) (baseUrl : String) : List String :=
  let refs := doc.filterMap (fun t =>
    match assetAttr t with
    | some attr => t.getAttr attr
    | none => none)
  (refs.map (urljoin baseUrl)).foldl
    (fun acc u => if u ∈ acc then acc else acc ++ [u]) []

/-- Downloader.fetch after the content was obtained (static success path):
    write the page file, then optionally fetch assets, with rewrite_assets
    computing — and discarding — the rewritten markup. parse is the
    markup-parsing capability applied to the fetched content. Returns the
    final file system and the saved page path. -/
def fetchSave (outputDir : String) (robotsAllow : String → Bool)
    (assetFetch : String → Except Unit String) (parse : String → Doc)
    (url content : String) (saveAssets rewriteAssets : Bool)
    (custom : Option String) (fs : FileSys) : FileSys × String :=
  let fname := outputDir ++ "/" ++ savedName url custom
  let fs1 := fsWrite fs fname content
  if saveAssets then
    if rewriteAssets then
      let (fs2, _rewritten) :=
        rewriteAssetsAndSave outputDir robotsAllow assetFetch
          (parse content) url fs1
      (fs2, fname)
    else
      (downloadAssetsOnly outputDir robotsAllow assetFetch
        (parseAssets (parse content) url) fs1, fname)
  else (fs1, fname)

/-- The parse tree of the C1 scenario page. -/
def c1Doc : Doc := [⟨"img", [("src", "/a.png")]⟩]

/-- The C1 scenario page markup. -/
def c1Html : String := "<img src=\"/a.png\">"

/-- C1, evaluated at the failing input (save_assets and rewrite_assets both
    true, one img referencing /a.png): the asset is downloaded to
    outputDir/assets/host/a.png, but the saved page on disk keeps the
    original markup with the original absolute reference — the rewritten
    markup computed by _rewrite_assets_and_save is discarded by fetch and
    never written back to the page file. -/
theorem c1_rewrite_discarded :
    (fsGet (fetchSave "out" (fun _ => true) (fun _ => Except.ok "PNGDATA")
        (fun _ => c1Doc) "http://host/" c1Html true true none []).1
      "out/assets/host/a.png" = some "PNGDATA") ∧
    (fsGet (fetchSave "out" (fun _ => true) (fun _ => Except.ok "PNGDATA")
        (fun _ => c1Doc) "http://host/" c1Html true true none []).1
      "out/host_index.html" = some c1Html) ∧
    ((rewriteAssetsAndSave "out" (fun _ => true) (fun _ => Except.ok "PNGDATA")
        c1Doc "http://host/" []).2 = "<img src=\"assets/host/a.png\">") ∧
    c1Html ≠ "<img src=\"assets/host/a.png\">" := by
  decide

/-! ## CrawlResult and the WARC exporter (crawler.py, lines 18-22 and 184-250) -/

structure CrawlResult where
  url : String
  saved_path : Option String := none
  error : Option String := none
deriving DecidableEq, Repr

/-- The records a WARC writer receives, in write order. -/
inductive WarcRecord where
  | warcinfo (fields : List (String × String))
  | resource (url : String) (payload : String)
deriving DecidableEq, Repr

def WarcRecord.isWarcinfo : WarcRecord → Bool
  | .warcinfo _ => true
  | .resource _ _ => false

/-- The enriched warcinfo header fields (crawler.py, lines 198-206). -/
def warcinfoFields (crawlStart : String)
    (nResults maxDepth maxPages concurrency : Nat) (respectRobots : Bool) :
    List (String × String) :=
  [("Software", "websitedownloaderpersonal/1.0"),
   ("Crawl-Start", crawlStart),
   ("Pages-Crawled", toString nResults),
   ("Max-Depth", toString maxDepth),
   ("Max-Pages", toString maxPages),
   ("Concurrency", toString concurrency),
   ("Respect-Robots", if respectRobots then "True" else "False")]

/-- os.path.dirname for the relative saved paths the crawler produces. -/
def dirname (s : String) : String :=
  match s.data.reverse.dropWhile (· ≠ '/') with
  | [] => ""
  | _ :: rest => ⟨rest.reverse⟩

/-- The expected on-disk location of an asset referenced by a saved page:
    dirname(saved_path)/assets/safe_host/basename (crawler.py, lines 236-241). -/
def assetCandidate (savedPath full : String) : String :=
  let p := urlparse full
  dirname savedPath ++ "/assets/" ++ safeHost p.netloc ++ "/" ++ assetBasename p.path

/-- The best-effort asset records for one exported page. assetRefs is the
    re-parse capability on the saved markup; its failure models any exception
    in the per-page asset-inclusion block, which the code swallows. -/
def pageAssetRecords (fs : FileSys)
    (assetRefs : String → Except Unit (List String)) (r : CrawlResult)
    (savedPath payload : String) : List WarcRecord :=
  match assetRefs payload with
  | .error _ => []
  | .ok refs =>
    refs.filterMap (fun a =>
      let full := urljoin r.url a
      match fsGet fs (assetCandidate savedPath full) with
      | some ap => some (WarcRecord.resource full ap)
      | none => none)

/-- The records the loop body writes for one CrawlResult. -/
def pageRecords (fs : FileSys)
    (assetRefs : String → Except Unit (List String)) (r : CrawlResult) :
    List WarcRecord :=
  match r.saved_path with
  | none => []
  | some p =>
    match fsGet fs p with
    | none => []
    | some payload =>
      WarcRecord.resource r.url payload ::
        pageAssetRecords fs assetRefs r p payload

/-- Crawler.export_warc: one warcinfo record, then the per-result loop. -/
def exportWarc (fs : FileSys) (assetRefs : String → Except Unit (List String))
    (fields : List (String × String)) (results : List CrawlResult) :
    List WarcRecord :=
  results.foldl (fun acc r => acc ++ pageRecords fs assetRefs r)
    [WarcRecord.warcinfo fields]

/-- From the claim's words (C8): exactly one warcinfo first; then, per
    CrawlResult with a non-null saved_path whose file exists at export time,
    one resource record keyed by the result's URL carrying the raw saved
    bytes, followed by resource records for that page's locally present
    referenced assets; a failure of the asset phase affects only that page's
    asset records. -/
def claimWarcRecords (fs : FileSys)
    (assetRefs : String → Except Unit (List String))
    (fields : List (String × String)) (results : List CrawlResult) :
    List WarcRecord :=
  WarcRecord.warcinfo fields ::
    results.flatMap (fun r =>
      match r.saved_path with
      | none => []
      | some p =>
        match fsGet fs p with
        | none => []
        | some payload =>
          WarcRecord.resource r.url payload ::
            (match assetRefs payload with
             | .error _ => []
             | .ok refs =>
               refs.filterMap (fun a =>
                 let full := urljoin r.url a
                 match fsGet fs (assetCandidate p full) with
                 | some ap => some (WarcRecord.resource full ap)
                 | none => none)))

theorem foldl_emit {α β : Type} (f : α → List β) :
    ∀ (l : List α) (init : List β),
      l.foldl (fun acc r => acc ++ f r) init = init ++ l.flatMap f := by
  intro l
  induction l with
  | nil => intro init; simp
  | cons a t ih => intro init; simp [List.foldl_cons, ih, List.append_assoc]

theorem pageRecords_no_warcinfo (fs : FileSys)
    (assetRefs : String → Except Unit (List String)) (r : CrawlResult) :
    ∀ rec ∈ pageRecords fs assetRefs r, rec.isWarcinfo = false := by
  intro rec hrec
  unfold pageRecords at hrec
  match hp : r.saved_path with
  | none => simp only [hp] at hrec; simp at hrec
  | some p =>
    simp only [hp] at hrec
    match hg : fsGet fs p with
    | none => simp only [hg] at hrec; simp at hrec
    | some payload =>
      simp only [hg] at hrec
      rcases List.mem_cons.mp hrec with h | h
      · subst h; rfl
      · unfold pageAssetRecords at h
        match ha : assetRefs payload with
        | .error _ => rw [ha] at h; simp at h
        | .ok refs =>
          rw [ha] at h
          obtain ⟨a, _, haeq⟩ := List.mem_filterMap.mp h
          rcases hcand : fsGet fs (assetCandidate p (urljoin r.url a)) with _ | ap
          · simp only [hcand] at haeq; cases haeq
          · simp only [hcand] at haeq; cases haeq; rfl

/-- C8: export_warc writes exactly one warcinfo record first, then, per
    CrawlResult whose saved file exists, one resource record with the file's
    raw bytes followed by that page's locally present asset records; an
    asset-phase failure is swallowed per page and later records still appear. -/
theorem c8_export_order (fs : FileSys)
    (assetRefs : String → Except Unit (List String))
    (fields : List (String × String)) (results : List CrawlResult) :
    exportWarc fs assetRefs fields results
        = claimWarcRecords fs assetRefs fields results ∧
    (exportWarc fs assetRefs fields results).head?
        = some (WarcRecord.warcinfo fields) ∧
    (exportWarc fs assetRefs fields results).countP WarcRecord.isWarcinfo = 1 := by
  have hmain : exportWarc fs assetRefs fields results
      = claimWarcRecords fs assetRefs fields results := by
    unfold exportWarc claimWarcRecords
    rw [foldl_emit]
    simp only [List.singleton_append]
    congr 1
  refine ⟨hmain, ?_, ?_⟩
  · rw [hmain]; rfl
  · rw [hmain, ← hmain]
    unfold exportWarc
    rw [foldl_emit, List.countP_append]
    have h0 : (results.flatMap (pageRecords fs assetRefs)).countP
        WarcRecord.isWarcinfo = 0 := by
      rw [List.countP_eq_zero]
      intro rec hrec
      obtain ⟨r, _, hmem⟩ := List.mem_flatMap.mp hrec
      simpa using pageRecords_no_warcinfo fs assetRefs r rec hmem
    simp [h0, WarcRecord.isWarcinfo]

/-! ## Crawler model (crawler.py, Crawler.crawl, lines 96-182)

The crawl is a concurrent system: worker threads executing the closure
worker(url, depth) interleaved with the dispatch loop. Each constructor of
WStep is one atomic region of the worker body (a region is atomic when the
code holds self._lock for all of it, or performs a single GIL-atomic list or
set operation); a schedule picks which agent moves next, covering every
thread interleaving of the Python code. External effects are the capability
parameters of CrawlCfg. -/

structure CrawlCfg where
  outputDir : String
  maxDepth : Nat
  maxPages : Nat
  sameDomain : Bool
  respectRobots : Bool
  robotsAllow : String → Bool
  fetchErr : String → Option String
  pageLinks : String → List String
  includeNonempty : Bool
  includeMatch : String → Bool
  excludeMatch : String → Bool

/-- Worker program counter: the atomic region the worker executes next. -/
inductive WStep where
  | checkResults
  | checkVisited
  | addVisited
  | checkDomain
  | checkRobots
  | waitHost
  | fetchStep
  | discover
  | done
deriving DecidableEq, Repr

structure Worker where
  url : String
  depth : Nat
  pc : WStep
deriving DecidableEq, Repr

structure CState where
  startHost : String
  queue : List (String × Nat)
  visited : List String
  results : List CrawlResult
  workers : List Worker
  dispatcherActive : Bool
deriving DecidableEq, Repr

/-- set.add on the visited set. -/
def insertUniq (l : List String) (x : String) : List String :=
  if x ∈ l then l else l ++ [x]

def setWorker (s : CState) (i : Nat) (w : Worker) : CState :=
  { s with workers := s.workers.set i w }

/-- One link considered inside the locked enqueue loop (lines 156-163). -/
def enqueueOne (cfg : CrawlCfg) (depth : Nat) (st : CState) (l : String) :
    CState :=
  if cfg.includeNonempty && !cfg.includeMatch l then st
  else if cfg.excludeMatch l then st
  else if l ∉ st.visited ∧ st.visited.length + st.queue.length < cfg.maxPages
    then { st with queue := st.queue ++ [(l, depth + 1)] }
  else st

/-- The whole locked enqueue loop for the links of one page. -/
def enqueueLinks (cfg : CrawlCfg) (s : CState) (url : String) (depth : Nat) :
    CState :=
  (cfg.pageLinks url).foldl (enqueueOne cfg depth) s

/-- One atomic region of worker(url, depth). -/
def wstep (cfg : CrawlCfg) (s : CState) (i : Nat) : CState :=
  match s.workers.get? i with
  | none => s
  | some w =>
    match w.pc with
    | .done => s
    | .checkResults =>
      if s.results.length ≥ cfg.maxPages then setWorker s i { w with pc := .done }
      else setWorker s i { w with pc := .checkVisited }
    | .checkVisited =>
      if w.url ∈ s.visited then setWorker s i { w with pc := .done }
      else setWorker s i { w with pc := .addVisited }
    | .addVisited =>
      setWorker { s with visited := insertUniq s.visited w.url } i
        { w with pc := .checkDomain }
    | .checkDomain =>
      if cfg.sameDomain && (netloc w.url != s.startHost) then
        setWorker s i { w with pc := .done }
      else setWorker s i { w with pc := .checkRobots }
    | .checkRobots =>
      if cfg.respectRobots && !cfg.robotsAllow w.url then
        setWorker
          { s with results :=
              s.results ++ [⟨w.url, none, some "Disallowed by robots.txt"⟩] }
          i { w with pc := .done }
      else setWorker s i { w with pc := .waitHost }
    | .waitHost => setWorker s i { w with pc := .fetchStep }
    | .fetchStep =>
      match cfg.fetchErr w.url with
      | some msg =>
        setWorker { s with results := s.results ++ [⟨w.url, none, some msg⟩] }
          i { w with pc := .done }
      | none =>
        setWorker
          { s with results := s.results ++
              [⟨w.url, some (cfg.outputDir ++ "/" ++ derivedFilename w.url), none⟩] }
          i { w with pc := .discover }
    | .discover =>
      let s2 := if w.depth < cfg.maxDepth then enqueueLinks cfg s w.url w.depth
        else s
      setWorker s2 i { w with pc := .done }

/-- One iteration of the dispatch loop (lines 171-178): when the while
    condition holds, pop the frontier head and submit a worker; when it
    fails, the loop exits for good. -/
def dstep (cfg : CrawlCfg) (s : CState) : CState :=
  if s.dispatcherActive then
    match s.queue with
    | [] => { s with dispatcherActive := false }
    | (url, depth) :: rest =>
      if s.results.length < cfg.maxPages then
        { s with
          queue := rest
          workers := s.workers ++ [⟨url, depth, WStep.checkResults⟩] }
      else { s with dispatcherActive := false }
  else s

/-- One scheduled move: none steps the dispatch loop, some i steps worker i. -/
def step (cfg : CrawlCfg) (s : CState) : Option Nat → CState
  | none => dstep cfg s
  | some i => wstep cfg s i

def run (cfg : CrawlCfg) (s : CState) (sched : List (Option Nat)) : CState :=
  sched.foldl (step cfg) s

/-- Python str.strip() on the seed (whitespace both ends). -/
def pyStrip (s : String) : String :=
  ⟨((s.data.dropWhile Char.isWhitespace).reverse.dropWhile
      Char.isWhitespace).reverse⟩

def strStarts (s pre : String) : Bool :=
  s.data.take pre.data.length == pre.data

/-- Seed normalization (crawl, lines 101-103). -/
def normalizeSeed (raw : String) : String :=
  let t := pyStrip raw
  if strStarts t "http://" || strStarts t "https://" then t
  else "https://" ++ t

/-- From the claim's words (C10): strip leading/trailing whitespace; when the
    stripped string starts with neither scheme prefix, put https:// in front. -/
def claimNormalizeSeed (raw : String) : String :=
  let t := pyStrip raw
  if !strStarts t "http://" && !strStarts t "https://" then "https://" ++ t
  else t

/-- Crawl state before the first scheduled move: the frontier holds the
    normalized seed at depth 0 and the seed host is its netloc. -/
def initState (raw : String) : CState :=
  let n := normalizeSeed raw
  { startHost := netloc n, queue := [(n, 0)], visited := [], results := [],
    workers := [], dispatcherActive := true }

def crawlRun (cfg : CrawlCfg) (raw : String) (sched : List (Option Nat)) :
    CState :=
  run cfg (initState raw) sched

/-! ### C3 and C4 counterexample runs -/

/-- A crawl over four pages of one host: the seed links to /2 and /3, and /3
    links to /5. All fetches succeed, robots are off. -/
def cfgC3 : CrawlCfg :=
  { outputDir := "out", maxDepth := 5, maxPages := 3, sameDomain := false,
    respectRobots := false, robotsAllow := fun _ => true,
    fetchErr := fun _ => none,
    pageLinks := fun u =>
      if u = "https://h/1" then ["https://h/2", "https://h/3"]
      else if u = "https://h/3" then ["https://h/5"] else [],
    includeNonempty := false, includeMatch := fun _ => true,
    excludeMatch := fun _ => false }

/-- A schedule of cfgC3: the seed worker finishes; workers for /2 and /3 are
    dispatched and both pass the max_pages gate while only one result exists;
    /3 finishes and its link /5 is dispatched and finishes too; the stalled
    /2 worker then appends a fourth result. -/
def schedC3 : List (Option Nat) :=
  [none] ++ List.replicate 8 (some 0) ++ [none, none, some 1] ++
    List.replicate 8 (some 2) ++ [none] ++ List.replicate 8 (some 3) ++
    List.replicate 7 (some 1)

/-- C3 fails as stated: a schedule of the worker interleaving exists in which
    the crawl collects 4 results although max_pages is 3 — the gate
    len(results) >= max_pages is read outside the lock, so several workers
    pass it before any of them appends. -/
theorem c3_counterexample :
    cfgC3.maxPages = 3 ∧
    (crawlRun cfgC3 "https://h/1" schedC3).results.length = 4 := by
  decide

/-- A crawl where /2 is discovered twice: by the seed and by /3, while the
    first worker for /2 is still between its visited-set check and its
    insert. -/
def cfgC4 : CrawlCfg :=
  { cfgC3 with
    maxPages := 10
    pageLinks := fun u =>
      if u = "https://h/1" then ["https://h/2", "https://h/3"]
      else if u = "https://h/3" then ["https://h/2"] else [] }

/-- A schedule of cfgC4: the seed finishes; workers for /2 and /3 are
    dispatched; /3 finishes and re-enqueues /2 (not yet in the visited set);
    a second /2 worker is dispatched; both /2 workers pass the unlocked
    membership check before either inserts, and both fetch and append. -/
def schedC4 : List (Option Nat) :=
  [none] ++ List.replicate 8 (some 0) ++ [none, none] ++
    List.replicate 8 (some 2) ++ [none, some 1, some 3, some 1, some 3] ++
    List.replicate 6 (some 1) ++ List.replicate 6 (some 3)

/-- C4 fails as stated: the membership check (line 116) runs outside the
    lock that guards the insert (lines 118-119), so two workers can both
    pass it for the same URL and the crawl returns two CrawlResults for one
    distinct URL. -/
theorem c4_counterexample :
    ((crawlRun cfgC4 "https://h/1" schedC4).results.filter
      (fun r => r.url == "https://h/2")).length = 2 := by
  decide

/-! ### Same-domain restriction (C7) and seed normalization (C10) -/

/-- Worker regions that lie beyond the same-domain gate of line 122. -/
def pastDomain : WStep → Bool
  | .checkRobots => true
  | .waitHost => true
  | .fetchStep => true
  | .discover => true
  | _ => false

/-- The same-domain invariant: every collected result and every worker beyond
    the domain gate has the seed host. -/
def DomainInv (s : CState) : Prop :=
  (∀ r ∈ s.results, netloc r.url = s.startHost) ∧
  (∀ w ∈ s.workers, pastDomain w.pc = true → netloc w.url = s.startHost)

theorem enqueueOne_fields (cfg : CrawlCfg) (d : Nat) (st : CState) (l : String) :
    (enqueueOne cfg d st l).startHost = st.startHost ∧
    (enqueueOne cfg d st l).results = st.results ∧
    (enqueueOne cfg d st l).workers = st.workers ∧
    (enqueueOne cfg d st l).visited = st.visited := by
  unfold enqueueOne
  split_ifs <;> simp

theorem foldl_enqueue_fields (cfg : CrawlCfg) (d : Nat) :
    ∀ (ls : List String) (st : CState),
      (ls.foldl (enqueueOne cfg d) st).startHost = st.startHost ∧
      (ls.foldl (enqueueOne cfg d) st).results = st.results ∧
      (ls.foldl (enqueueOne cfg d) st).workers = st.workers ∧
      (ls.foldl (enqueueOne cfg d) st).visited = st.visited := by
  intro ls
  induction ls with
  | nil => intro st; exact ⟨rfl, rfl, rfl, rfl⟩
  | cons a t ih =>
    intro st
    have h1 := enqueueOne_fields cfg d st a
    have h2 := ih (enqueueOne cfg d st a)
    simp only [List.foldl_cons]
    exact ⟨h2.1.trans h1.1, h2.2.1.trans h1.2.1, h2.2.2.1.trans h1.2.2.1,
      h2.2.2.2.trans h1.2.2.2⟩

theorem enqueueLinks_fields (cfg : CrawlCfg) (s : CState) (url : String)
    (depth : Nat) :
    (enqueueLinks cfg s url depth).startHost = s.startHost ∧
    (enqueueLinks cfg s url depth).results = s.results ∧
    (enqueueLinks cfg s url depth).workers = s.workers ∧
    (enqueueLinks cfg s url depth).visited = s.visited :=
  foldl_enqueue_fields cfg depth (cfg.pageLinks url) s

theorem startHost_wstep (cfg : CrawlCfg) (s : CState) (i : Nat) :
    (wstep cfg s i).startHost = s.startHost := by
  unfold wstep
  cases hw : s.workers.get? i with
  | none => rfl
  | some w =>
    obtain ⟨url, depth, pc⟩ := w
    cases pc <;> dsimp only <;>
      first
        | rfl
        | (split_ifs <;> rfl)
        | (cases hf : cfg.fetchErr url <;> rfl)
        | (show (setWorker (if depth < cfg.maxDepth then
              enqueueLinks cfg s url depth else s) i
              ⟨url, depth, WStep.done⟩).startHost = s.startHost
           split_ifs with h
           · exact (enqueueLinks_fields cfg s url depth).1
           · rfl)

theorem startHost_step (cfg : CrawlCfg) (s : CState) (a : Option Nat) :
    (step cfg s a).startHost = s.startHost := by
  match a with
  | none =>
    show (dstep cfg s).startHost = s.startHost
    unfold dstep
    split
    · split
      · rfl
      · split <;> rfl
    · rfl
  | some i => exact startHost_wstep cfg s i

theorem startHost_run (cfg : CrawlCfg) :
    ∀ (sched : List (Option Nat)) (s : CState),
      (run cfg s sched).startHost = s.startHost := by
  intro sched
  induction sched with
  | nil => intro s; rfl
  | cons a t ih =>
    intro s
    show (run cfg (step cfg s a) t).startHost = s.startHost
    rw [ih (step cfg s a), startHost_step]

theorem domainInv_step (cfg : CrawlCfg) (hsd : cfg.sameDomain = true)
    (s : CState) (a : Option Nat) (h : DomainInv s) : DomainInv (step cfg s a) := by
  obtain ⟨hres, hwork⟩ := h
  have hsh := startHost_step cfg s a
  match a with
  | none =>
    show DomainInv (dstep cfg s)
    unfold dstep
    split
    · split
      · exact ⟨hres, hwork⟩
      · split
        · refine ⟨hres, ?_⟩
          intro w hw hpd
          rcases List.mem_append.mp hw with h1 | h1
          · exact hwork w h1 hpd
          · simp at h1; subst h1; simp [pastDomain] at hpd
        · exact ⟨hres, hwork⟩
    · exact ⟨hres, hwork⟩
  | some i =>
    show DomainInv (wstep cfg s i)
    unfold wstep
    cases hw : s.workers.get? i with
    | none => exact ⟨hres, hwork⟩
    | some w =>
      have hwmem : w ∈ s.workers := List.get?_mem hw
      have hset : ∀ (s2 : CState) (w2 : Worker),
          (∀ r ∈ s2.results, netloc r.url = s2.startHost) →
          s2.workers = s.workers → s2.startHost = s.startHost →
          (pastDomain w2.pc = true → netloc w2.url = s2.startHost) →
          DomainInv (setWorker s2 i w2) := by
        intro s2 w2 h2res h2w h2sh h2pd
        refine ⟨h2res, ?_⟩
        intro w3 hw3 hpd3
        rcases List.mem_or_eq_of_mem_set (by simpa [setWorker, h2w] using hw3)
          with h3 | h3
        · rw [show (setWorker s2 i w2).startHost = s2.startHost from rfl, h2sh]
          exact hwork w3 h3 hpd3
        · subst h3
          exact h2pd hpd3
      obtain ⟨url, depth, pc⟩ := w
      cases pc <;> dsimp only
      · -- checkResults
        split_ifs <;>
          exact hset s _ hres rfl rfl (by intro hpd; simp [pastDomain] at hpd)
      · -- checkVisited
        split_ifs <;>
          exact hset s _ hres rfl rfl (by intro hpd; simp [pastDomain] at hpd)
      · -- addVisited
        exact hset { s with visited := insertUniq s.visited url } _ hres rfl rfl
          (by intro hpd; simp [pastDomain] at hpd)
      · -- checkDomain
        split_ifs with hc
        · exact hset s _ hres rfl rfl (by intro hpd; simp [pastDomain] at hpd)
        · refine hset s _ hres rfl rfl ?_
          intro _
          rw [hsd] at hc
          simp only [Bool.true_and, bne_iff_ne, ne_eq, not_not] at hc
          exact hc
      · -- checkRobots
        have hurl : netloc url = s.startHost := hwork _ hwmem rfl
        split_ifs
        · refine hset _ _ ?_ rfl rfl (by intro hpd; simp [pastDomain] at hpd)
          intro r hr
          rcases List.mem_append.mp hr with h1 | h1
          · exact hres r h1
          · simp at h1; subst h1; exact hurl
        · exact hset s _ hres rfl rfl (fun _ => hurl)
      · -- waitHost
        have hurl : netloc url = s.startHost := hwork _ hwmem rfl
        exact hset s _ hres rfl rfl (fun _ => hurl)
      · -- fetchStep
        have hurl : netloc url = s.startHost := hwork _ hwmem rfl
        cases hf : cfg.fetchErr url <;> dsimp only
        · refine hset _ _ ?_ rfl rfl (fun _ => hurl)
          intro r hr
          rcases List.mem_append.mp hr with h1 | h1
          · exact hres r h1
          · simp at h1; subst h1; exact hurl
        · refine hset _ _ ?_ rfl rfl (by intro hpd; simp [pastDomain] at hpd)
          intro r hr
          rcases List.mem_append.mp hr with h1 | h1
          · exact hres r h1
          · simp at h1; subst h1; exact hurl
      · -- discover
        show DomainInv (setWorker (if depth < cfg.maxDepth then
            enqueueLinks cfg s url depth else s) i ⟨url, depth, WStep.done⟩)
        have hfe := enqueueLinks_fields cfg s url depth
        split_ifs with hd
        · refine hset (enqueueLinks cfg s url depth) _ ?_ hfe.2.2.1 hfe.1
            (by intro hpd; simp [pastDomain] at hpd)
          intro r hr
          rw [hfe.2.1] at hr
          rw [hfe.1]
          exact hres r hr
        · exact hset s _ hres rfl rfl (by intro hpd; simp [pastDomain] at hpd)
      · -- done
        exact ⟨hres, hwork⟩

theorem domainInv_run (cfg : CrawlCfg) (hsd : cfg.sameDomain = true) :
    ∀ (sched : List (Option Nat)) (s : CState),
      DomainInv s → DomainInv (run cfg s sched) := by
  intro sched
  induction sched with
  | nil => intro s h; exact h
  | cons a t ih =>
    intro s h
    exact ih (step cfg s a) (domainInv_step cfg hsd s a h)

/-- C7: with same_domain on, under every schedule no CrawlResult carries a
    URL whose host differs from the seed host, and no worker whose URL has a
    foreign host ever reaches the robots gate, the rate limiter, the fetch,
    or link discovery — cross-domain URLs are dropped at the domain gate
    without producing a result. -/
theorem c7_same_domain (cfg : CrawlCfg) (hsd : cfg.sameDomain = true)
    (raw : String) (sched : List (Option Nat)) :
    (∀ r ∈ (crawlRun cfg raw sched).results,
      netloc r.url = netloc (normalizeSeed raw)) ∧
    (∀ w ∈ (crawlRun cfg raw sched).workers, pastDomain w.pc = true →
      netloc w.url = netloc (normalizeSeed raw)) := by
  have h0 : DomainInv (initState raw) := by
    constructor
    · intro r hr; simp [initState] at hr
    · intro w hw; simp [initState] at hw
  have h := domainInv_run cfg hsd sched (initState raw) h0
  have hsh : (crawlRun cfg raw sched).startHost = netloc (normalizeSeed raw) :=
    startHost_run cfg sched (initState raw)
  obtain ⟨h1, h2⟩ := h
  constructor
  · intro r hr; rw [← hsh]; exact h1 r hr
  · intro w hw hpd; rw [← hsh]; exact h2 w hw hpd

/-- A same-domain crawl whose seed page links to a foreign host. -/
def cfgC7 : CrawlCfg :=
  { cfgC3 with
    sameDomain := true
    pageLinks := fun u =>
      if u = "https://h/1" then ["https://other/x", "https://h/2"] else [] }

def schedC7 : List (Option Nat) :=
  [none] ++ List.replicate 8 (some 0) ++ [none, none] ++
    List.replicate 8 (some 1) ++ List.replicate 8 (some 2)

/-- Witness for C7 on a concrete same-domain crawl with a cross-domain link. -/
theorem c7_same_domain_witness :
    (∀ r ∈ (crawlRun cfgC7 "https://h/1" schedC7).results,
      netloc r.url = netloc (normalizeSeed "https://h/1")) ∧
    (∀ w ∈ (crawlRun cfgC7 "https://h/1" schedC7).workers,
      pastDomain w.pc = true →
      netloc w.url = netloc (normalizeSeed "https://h/1")) :=
  c7_same_domain cfgC7 rfl "https://h/1" schedC7

/-- C10: the seed URL is normalized exactly as the claim describes (strip,
    then prefix https:// when no scheme prefix is present), and the crawl's
    initial frontier entry, seed host, and first dispatched worker all carry
    the normalized URL, not the raw input. -/
theorem c10_seed_normalized (cfg : CrawlCfg) (raw : String)
    (h : 0 < cfg.maxPages) :
    normalizeSeed raw = claimNormalizeSeed raw ∧
    (initState raw).queue = [(normalizeSeed raw, 0)] ∧
    (initState raw).startHost = netloc (normalizeSeed raw) ∧
    (step cfg (initState raw) none).workers =
      [⟨normalizeSeed raw, 0, WStep.checkResults⟩] := by
  refine ⟨?_, rfl, rfl, ?_⟩
  · unfold normalizeSeed claimNormalizeSeed
    by_cases h1 : strStarts (pyStrip raw) "http://" <;>
      by_cases h2 : strStarts (pyStrip raw) "https://" <;> simp [h1, h2]
  · show (dstep cfg (initState raw)).workers = _
    simp [dstep, initState, h]

/-- Witness for C10 at a raw seed with whitespace and no scheme. -/
theorem c10_seed_normalized_witness :
    0 < cfgC3.maxPages ∧
    (normalizeSeed " h/1 " = claimNormalizeSeed " h/1 " ∧
      (initState " h/1 ").queue = [(normalizeSeed " h/1 ", 0)] ∧
      (initState " h/1 ").startHost = netloc (normalizeSeed " h/1 ") ∧
      (step cfgC3 (initState " h/1 ") none).workers =
        [⟨normalizeSeed " h/1 ", 0, WStep.checkResults⟩]) :=
  ⟨by decide, c10_seed_normalized cfgC3 " h/1 " (by decide)⟩

/-! ### Sequential (non-interleaved) crawl schedules

The amended C3 and C4 hold when each dispatched job runs to completion
before the next scheduled move: the schedule dispatches one job, then runs
that worker's (at most 8) regions back to back. -/

/-- Dispatch job k, then run worker k to completion. -/
def seqBlock (k : Nat) : List (Option Nat) :=
  none :: List.replicate 8 (some k)

/-- The fully serialized schedule of k jobs. -/
def seqSched (k : Nat) : List (Option Nat) :=
  (List.range k).flatMap seqBlock

theorem get?_set_self {α : Type} :
    ∀ (l : List α) (i : Nat) (a : α), i < l.length →
      (l.set i a).get? i = some a := by
  intro l
  induction l with
  | nil => intro i a h; simp at h
  | cons x t ih =>
    intro i a h
    cases i with
    | zero => rfl
    | succ j => exact ih j a (by simpa using h)

theorem get?_set_ne {α : Type} :
    ∀ (l : List α) (i j : Nat) (a : α), i ≠ j →
      (l.set i a).get? j = l.get? j := by
  intro l
  induction l with
  | nil => intro i j a _; simp
  | cons x t ih =>
    intro i j a h
    cases i with
    | zero =>
      cases j with
      | zero => exact absurd rfl h
      | succ m => rfl
    | succ n =>
      cases j with
      | zero => rfl
      | succ m => exact ih n m a (by omega)

theorem get?_lt {α : Type} :
    ∀ (l : List α) (i : Nat) (a : α), l.get? i = some a → i < l.length := by
  intro l
  induction l with
  | nil => intro i a h; simp [List.get?] at h
  | cons x t ih =>
    intro i a h
    cases i with
    | zero => simp
    | succ j => exact Nat.succ_lt_succ (ih j a h)

theorem setWorker_get (s : CState) (i : Nat) (w : Worker)
    (h : i < s.workers.length) :
    (setWorker s i w).workers.get? i = some w :=
  get?_set_self s.workers i w h

theorem mem_insertUniq (l : List String) (x y : String) :
    y ∈ insertUniq l x ↔ y ∈ l ∨ y = x := by
  unfold insertUniq
  split_ifs with h
  · constructor
    · exact fun hy => Or.inl hy
    · rintro (hy | rfl)
      · exact hy
      · exact h
  · simp

/-- Big-step execution of one worker from its entry gate to completion: the
    composition of its atomic regions with no other agent moving in between,
    threading the same intermediate states the small-step run visits. -/
def execWorker (cfg : CrawlCfg) (s : CState) (i : Nat) (url : String)
    (depth : Nat) : CState :=
  if s.results.length ≥ cfg.maxPages then
    setWorker s i ⟨url, depth, WStep.done⟩
  else
    let t1 := setWorker s i ⟨url, depth, WStep.checkVisited⟩
    if url ∈ t1.visited then setWorker t1 i ⟨url, depth, WStep.done⟩
    else
      let t1a := setWorker t1 i ⟨url, depth, WStep.addVisited⟩
      let t2 := setWorker { t1a with visited := insertUniq t1a.visited url } i
        ⟨url, depth, WStep.checkDomain⟩
      if cfg.sameDomain && (netloc url != t2.startHost) then
        setWorker t2 i ⟨url, depth, WStep.done⟩
      else
        let t3 := setWorker t2 i ⟨url, depth, WStep.checkRobots⟩
        if cfg.respectRobots && !cfg.robotsAllow url then
          setWorker { t3 with results :=
            t3.results ++ [⟨url, none, some "Disallowed by robots.txt"⟩] } i
            ⟨url, depth, WStep.done⟩
        else
          let t4 := setWorker t3 i ⟨url, depth, WStep.waitHost⟩
          let t5 := setWorker t4 i ⟨url, depth, WStep.fetchStep⟩
          match cfg.fetchErr url with
          | some msg =>
            setWorker { t5 with results := t5.results ++ [⟨url, none, some msg⟩] }
              i ⟨url, depth, WStep.done⟩
          | none =>
            let t6 := setWorker { t5 with results := t5.results ++
              [⟨url, some (cfg.outputDir ++ "/" ++ derivedFilename url), none⟩] }
              i ⟨url, depth, WStep.discover⟩
            setWorker (if depth < cfg.maxDepth then enqueueLinks cfg t6 url depth
              else t6) i ⟨url, depth, WStep.done⟩

theorem setWorker_visited (s : CState) (i : Nat) (w : Worker) :
    (setWorker s i w).visited = s.visited := rfl

theorem setWorker_results (s : CState) (i : Nat) (w : Worker) :
    (setWorker s i w).results = s.results := rfl

theorem setWorker_workers (s : CState) (i : Nat) (w : Worker) :
    (setWorker s i w).workers = s.workers.set i w := rfl

theorem wstep_cr (cfg : CrawlCfg) (t : CState) (i : Nat) (url : String)
    (depth : Nat)
    (hw : t.workers.get? i = some ⟨url, depth, WStep.checkResults⟩) :
    wstep cfg t i =
      if t.results.length ≥ cfg.maxPages then
        setWorker t i ⟨url, depth, WStep.done⟩
      else setWorker t i ⟨url, depth, WStep.checkVisited⟩ := by
  unfold wstep; rw [hw]

theorem wstep_cv (cfg : CrawlCfg) (t : CState) (i : Nat) (url : String)
    (depth : Nat)
    (hw : t.workers.get? i = some ⟨url, depth, WStep.checkVisited⟩) :
    wstep cfg t i =
      if url ∈ t.visited then setWorker t i ⟨url, depth, WStep.done⟩
      else setWorker t i ⟨url, depth, WStep.addVisited⟩ := by
  unfold wstep; rw [hw]

theorem wstep_av (cfg : CrawlCfg) (t : CState) (i : Nat) (url : String)
    (depth : Nat)
    (hw : t.workers.get? i = some ⟨url, depth, WStep.addVisited⟩) :
    wstep cfg t i =
      setWorker { t with visited := insertUniq t.visited url } i
        ⟨url, depth, WStep.checkDomain⟩ := by
  unfold wstep; rw [hw]

theorem wstep_cd (cfg : CrawlCfg) (t : CState) (i : Nat) (url : String)
    (depth : Nat)
    (hw : t.workers.get? i = some ⟨url, depth, WStep.checkDomain⟩) :
    wstep cfg t i =
      if cfg.sameDomain && (netloc url != t.startHost) then
        setWorker t i ⟨url, depth, WStep.done⟩
      else setWorker t i ⟨url, depth, WStep.checkRobots⟩ := by
  unfold wstep; rw [hw]

theorem wstep_cb (cfg : CrawlCfg) (t : CState) (i : Nat) (url : String)
    (depth : Nat)
    (hw : t.workers.get? i = some ⟨url, depth, WStep.checkRobots⟩) :
    wstep cfg t i =
      if cfg.respectRobots && !cfg.robotsAllow url then
        setWorker { t with results :=
          t.results ++ [⟨url, none, some "Disallowed by robots.txt"⟩] } i
          ⟨url, depth, WStep.done⟩
      else setWorker t i ⟨url, depth, WStep.waitHost⟩ := by
  unfold wstep; rw [hw]

theorem wstep_wh (cfg : CrawlCfg) (t : CState) (i : Nat) (url : String)
    (depth : Nat)
    (hw : t.workers.get? i = some ⟨url, depth, WStep.waitHost⟩) :
    wstep cfg t i = setWorker t i ⟨url, depth, WStep.fetchStep⟩ := by
  unfold wstep; rw [hw]

theorem wstep_fs (cfg : CrawlCfg) (t : CState) (i : Nat) (url : String)
    (depth : Nat)
    (hw : t.workers.get? i = some ⟨url, depth, WStep.fetchStep⟩) :
    wstep cfg t i =
      match cfg.fetchErr url with
      | some msg =>
        setWorker { t with results := t.results ++ [⟨url, none, some msg⟩] } i
          ⟨url, depth, WStep.done⟩
      | none =>
        setWorker { t with results := t.results ++
            [⟨url, some (cfg.outputDir ++ "/" ++ derivedFilename url), none⟩] }
          i ⟨url, depth, WStep.discover⟩ := by
  unfold wstep; rw [hw]

theorem wstep_dv (cfg : CrawlCfg) (t : CState) (i : Nat) (url : String)
    (depth : Nat)
    (hw : t.workers.get? i = some ⟨url, depth, WStep.discover⟩) :
    wstep cfg t i =
      setWorker (if depth < cfg.maxDepth then enqueueLinks cfg t url depth
        else t) i ⟨url, depth, WStep.done⟩ := by
  unfold wstep; rw [hw]

theorem wstep_done (cfg : CrawlCfg) (t : CState) (i : Nat) (w : Worker)
    (hw : t.workers.get? i = some w) (hpc : w.pc = WStep.done) :
    wstep cfg t i = t := by
  unfold wstep; rw [hw]
  obtain ⟨url, depth, pc⟩ := w
  cases hpc
  rfl

theorem wstep_oob (cfg : CrawlCfg) (t : CState) (i : Nat)
    (h : t.workers.get? i = none) : wstep cfg t i = t := by
  unfold wstep; rw [h]

theorem run_done (cfg : CrawlCfg) :
    ∀ (n : Nat) (t : CState) (i : Nat) (w : Worker),
      t.workers.get? i = some w → w.pc = WStep.done →
      List.foldl (step cfg) t (List.replicate n (some i)) = t := by
  intro n
  induction n with
  | zero => intro t i w _ _; rfl
  | succ m ih =>
    intro t i w hw hpc
    rw [List.replicate_succ, List.foldl_cons,
      show step cfg t (some i) = t from wstep_done cfg t i w hw hpc]
    exact ih t i w hw hpc

theorem run_oob (cfg : CrawlCfg) :
    ∀ (n : Nat) (t : CState) (i : Nat),
      t.workers.get? i = none →
      List.foldl (step cfg) t (List.replicate n (some i)) = t := by
  intro n
  induction n with
  | zero => intro t i _; rfl
  | succ m ih =>
    intro t i hw
    rw [List.replicate_succ, List.foldl_cons,
      show step cfg t (some i) = t from wstep_oob cfg t i hw]
    exact ih t i hw

theorem setWorker_len (t : CState) (i : Nat) (w : Worker) :
    (setWorker t i w).workers.length = t.workers.length := by
  simp [setWorker]

/-- The serialized 8-region run of a freshly dispatched worker equals its
    big-step execution. -/
theorem run8_eq (cfg : CrawlCfg) (s : CState) (i : Nat) (url : String)
    (depth : Nat)
    (hw : s.workers.get? i = some ⟨url, depth, WStep.checkResults⟩) :
    List.foldl (step cfg) s (List.replicate 8 (some i)) =
      execWorker cfg s i url depth := by
  have hlen : i < s.workers.length := get?_lt _ _ _ hw
  unfold execWorker
  rw [show List.replicate 8 (some i) = some i :: List.replicate 7 (some i)
      from rfl, List.foldl_cons,
    show step cfg s (some i) = wstep cfg s i from rfl,
    wstep_cr cfg s i url depth hw]
  by_cases h1 : s.results.length ≥ cfg.maxPages
  · rw [if_pos h1, if_pos h1]
    exact run_done cfg 7 _ i _ (setWorker_get s i _ hlen) rfl
  · rw [if_neg h1, if_neg h1]
    set t1 := setWorker s i (⟨url, depth, WStep.checkVisited⟩ : Worker)
      with ht1
    have hl1 : i < t1.workers.length := by rw [ht1, setWorker_len]; exact hlen
    have hw1 : t1.workers.get? i = some ⟨url, depth, WStep.checkVisited⟩ := by
      rw [ht1]; exact setWorker_get s i _ hlen
    rw [show List.replicate 7 (some i) = some i :: List.replicate 6 (some i)
        from rfl, List.foldl_cons,
      show step cfg t1 (some i) = wstep cfg t1 i from rfl,
      wstep_cv cfg t1 i url depth hw1]
    by_cases h2 : url ∈ t1.visited
    · rw [if_pos h2, if_pos h2]
      exact run_done cfg 6 _ i _ (setWorker_get t1 i _ hl1) rfl
    · rw [if_neg h2, if_neg h2]
      set t1a := setWorker t1 i (⟨url, depth, WStep.addVisited⟩ : Worker)
        with ht1a
      have hl1a : i < t1a.workers.length := by
        rw [ht1a, setWorker_len]; exact hl1
      have hw1a : t1a.workers.get? i = some ⟨url, depth, WStep.addVisited⟩ := by
        rw [ht1a]; exact setWorker_get t1 i _ hl1
      rw [show List.replicate 6 (some i) = some i :: List.replicate 5 (some i)
          from rfl, List.foldl_cons,
        show step cfg t1a (some i) = wstep cfg t1a i from rfl,
        wstep_av cfg t1a i url depth hw1a]
      set t2 := setWorker { t1a with visited := insertUniq t1a.visited url } i
        (⟨url, depth, WStep.checkDomain⟩ : Worker) with ht2
      have hl2 : i < t2.workers.length := by
        rw [ht2, setWorker_len]; exact hl1a
      have hw2 : t2.workers.get? i = some ⟨url, depth, WStep.checkDomain⟩ := by
        rw [ht2]; exact setWorker_get _ i _ hl1a
      rw [show List.replicate 5 (some i) = some i :: List.replicate 4 (some i)
          from rfl, List.foldl_cons,
        show step cfg t2 (some i) = wstep cfg t2 i from rfl,
        wstep_cd cfg t2 i url depth hw2]
      by_cases h3 : (cfg.sameDomain && (netloc url != t2.startHost)) = true
      · rw [if_pos h3, if_pos h3]
        exact run_done cfg 4 _ i _ (setWorker_get t2 i _ hl2) rfl
      · rw [if_neg h3, if_neg h3]
        set t3 := setWorker t2 i (⟨url, depth, WStep.checkRobots⟩ : Worker)
          with ht3
        have hl3 : i < t3.workers.length := by
          rw [ht3, setWorker_len]; exact hl2
        have hw3 : t3.workers.get? i = some ⟨url, depth, WStep.checkRobots⟩ := by
          rw [ht3]; exact setWorker_get t2 i _ hl2
        rw [show List.replicate 4 (some i) = some i :: List.replicate 3 (some i)
            from rfl, List.foldl_cons,
          show step cfg t3 (some i) = wstep cfg t3 i from rfl,
          wstep_cb cfg t3 i url depth hw3]
        by_cases h4 : (cfg.respectRobots && !cfg.robotsAllow url) = true
        · rw [if_pos h4, if_pos h4]
          exact run_done cfg 3 _ i ⟨url, depth, WStep.done⟩
            (setWorker_get _ i _ hl3) rfl
        · rw [if_neg h4, if_neg h4]
          set t4 := setWorker t3 i (⟨url, depth, WStep.waitHost⟩ : Worker)
            with ht4
          have hl4 : i < t4.workers.length := by
            rw [ht4, setWorker_len]; exact hl3
          have hw4 : t4.workers.get? i = some ⟨url, depth, WStep.waitHost⟩ := by
            rw [ht4]; exact setWorker_get t3 i _ hl3
          rw [show List.replicate 3 (some i)
              = some i :: List.replicate 2 (some i) from rfl, List.foldl_cons,
            show step cfg t4 (some i) = wstep cfg t4 i from rfl,
            wstep_wh cfg t4 i url depth hw4]
          set t5 := setWorker t4 i (⟨url, depth, WStep.fetchStep⟩ : Worker)
            with ht5
          have hl5 : i < t5.workers.length := by
            rw [ht5, setWorker_len]; exact hl4
          have hw5 : t5.workers.get? i = some ⟨url, depth, WStep.fetchStep⟩ := by
            rw [ht5]; exact setWorker_get t4 i _ hl4
          rw [show List.replicate 2 (some i)
              = some i :: List.replicate 1 (some i) from rfl, List.foldl_cons,
            show step cfg t5 (some i) = wstep cfg t5 i from rfl,
            wstep_fs cfg t5 i url depth hw5]
          cases hf : cfg.fetchErr url with
          | some msg =>
            dsimp only
            exact run_done cfg 1 _ i ⟨url, depth, WStep.done⟩
              (setWorker_get _ i _ hl5) rfl
          | none =>
            dsimp only
            set t6 := setWorker { t5 with results := t5.results ++
                [⟨url, some (cfg.outputDir ++ "/" ++ derivedFilename url),
                  none⟩] } i (⟨url, depth, WStep.discover⟩ : Worker) with ht6
            have hl6 : i < t6.workers.length := by
              rw [ht6, setWorker_len]; exact hl5
            have hw6 : t6.workers.get? i
                = some ⟨url, depth, WStep.discover⟩ := by
              rw [ht6]; exact setWorker_get _ i _ hl5
            rw [show List.replicate 1 (some i) = some i :: ([] : List (Option Nat))
                from rfl, List.foldl_cons,
              show step cfg t6 (some i) = wstep cfg t6 i from rfl,
              wstep_dv cfg t6 i url depth hw6]
            rfl

/-- What one serialized worker run does to the shared state: it appends at
    most one result, and only after observing the gate open and its URL
    unvisited; the visited set only grows; worker i ends done. -/
theorem execWorker_spec (cfg : CrawlCfg) (s : CState) (i : Nat) (url : String)
    (depth : Nat) :
    ((execWorker cfg s i url depth).results = s.results ∨
      (∃ r, (execWorker cfg s i url depth).results = s.results ++ [r] ∧
        r.url = url ∧ s.results.length < cfg.maxPages ∧ url ∉ s.visited ∧
        url ∈ (execWorker cfg s i url depth).visited)) ∧
    (∀ x ∈ s.visited, x ∈ (execWorker cfg s i url depth).visited) ∧
    (execWorker cfg s i url depth).workers
      = s.workers.set i ⟨url, depth, WStep.done⟩ := by
  have hmax : ¬(s.results.length ≥ cfg.maxPages) →
      s.results.length < cfg.maxPages := fun h => Nat.lt_of_not_le h
  unfold execWorker
  by_cases h1 : s.results.length ≥ cfg.maxPages
  · simp only [if_pos h1]
    exact ⟨Or.inl rfl, fun x hx => hx, rfl⟩
  · simp only [if_neg h1]
    by_cases h2 : url ∈
        (setWorker s i (⟨url, depth, WStep.checkVisited⟩ : Worker)).visited
    · simp only [if_pos h2]
      refine ⟨Or.inl rfl, fun x hx => hx, ?_⟩
      simp [setWorker, List.set_set]
    · simp only [if_neg h2]
      have h2s : url ∉ s.visited := h2
      have hmem : ∀ x ∈ s.visited, x ∈ insertUniq s.visited url :=
        fun x hx => (mem_insertUniq s.visited url x).mpr (Or.inl hx)
      have hself : url ∈ insertUniq s.visited url :=
        (mem_insertUniq s.visited url url).mpr (Or.inr rfl)
      by_cases h3 : (cfg.sameDomain && (netloc url !=
          (setWorker { setWorker (setWorker s i
              (⟨url, depth, WStep.checkVisited⟩ : Worker)) i
              (⟨url, depth, WStep.addVisited⟩ : Worker) with
            visited := insertUniq (setWorker (setWorker s i
              (⟨url, depth, WStep.checkVisited⟩ : Worker)) i
              (⟨url, depth, WStep.addVisited⟩ : Worker)).visited url } i
            (⟨url, depth, WStep.checkDomain⟩ : Worker)).startHost)) = true
      · simp only [if_pos h3]
        refine ⟨Or.inl rfl, hmem, ?_⟩
        simp [setWorker, List.set_set]
      · simp only [if_neg h3]
        by_cases h4 : (cfg.respectRobots && !cfg.robotsAllow url) = true
        · simp only [if_pos h4]
          refine ⟨Or.inr ⟨⟨url, none, some "Disallowed by robots.txt"⟩,
            rfl, rfl, hmax h1, h2s, hself⟩, hmem, ?_⟩
          simp [setWorker, List.set_set]
        · simp only [if_neg h4]
          cases hf : cfg.fetchErr url with
          | some msg =>
            simp only [hf]
            refine ⟨Or.inr ⟨⟨url, none, some msg⟩, rfl, rfl, hmax h1, h2s,
              hself⟩, hmem, ?_⟩
            simp [setWorker, List.set_set]
          | none =>
            simp only [hf]
            by_cases h6 : depth < cfg.maxDepth
            · simp only [if_pos h6]
              refine ⟨Or.inr ⟨⟨url,
                some (cfg.outputDir ++ "/" ++ derivedFilename url), none⟩,
                ?_, rfl, hmax h1, h2s, ?_⟩, ?_, ?_⟩
              · simp only [setWorker_results]
                rw [(enqueueLinks_fields cfg _ url depth).2.1]
                rfl
              · simp only [setWorker_visited]
                rw [(enqueueLinks_fields cfg _ url depth).2.2.2]
                exact hself
              · intro x hx
                simp only [setWorker_visited]
                rw [(enqueueLinks_fields cfg _ url depth).2.2.2]
                exact hmem x hx
              · simp only [setWorker_workers]
                rw [(enqueueLinks_fields cfg _ url depth).2.2.1]
                simp [setWorker, List.set_set]
            · simp only [if_neg h6]
              refine ⟨Or.inr ⟨⟨url,
                some (cfg.outputDir ++ "/" ++ derivedFilename url), none⟩,
                rfl, rfl, hmax h1, h2s, hself⟩, hmem, ?_⟩
              simp [setWorker, List.set_set]

/-- All dispatched workers have finished. -/
def allDone (s : CState) : Prop :=
  ∀ j w, s.workers.get? j = some w → w.pc = WStep.done

/-- State invariant of a serialized crawl after j dispatch blocks. -/
def SeqInv (cfg : CrawlCfg) (j : Nat) (s : CState) : Prop :=
  s.results.length ≤ cfg.maxPages ∧
  (s.results.map CrawlResult.url).Nodup ∧
  (∀ r ∈ s.results, r.url ∈ s.visited) ∧
  allDone s ∧
  (s.workers.length = j ∨
    (s.dispatcherActive = false ∧ s.workers.length ≤ j))

theorem seqInv_block (cfg : CrawlCfg) (k : Nat) (s : CState)
    (h : SeqInv cfg k s) :
    SeqInv cfg (k + 1) (List.foldl (step cfg) s (seqBlock k)) := by
  obtain ⟨hlen, hnd, hsub, hdone, hcnt⟩ := h
  rw [show seqBlock k = none :: List.replicate 8 (some k) from rfl,
    List.foldl_cons, show step cfg s none = dstep cfg s from rfl]
  unfold dstep
  by_cases ha : s.dispatcherActive = true
  · rw [if_pos ha]
    have hk : s.workers.length = k := by
      rcases hcnt with h | ⟨hfalse, _⟩
      · exact h
      · rw [ha] at hfalse; cases hfalse
    generalize hq : s.queue = q
    cases q with
    | nil =>
      dsimp only
      have hnone : ({ s with
          queue := ([] : List (String × Nat))
          dispatcherActive := false } : CState).workers.get? k = none := by
        show s.workers.get? k = none
        exact List.get?_eq_none.mpr (le_of_eq hk)
      rw [run_oob cfg 8 _ k hnone]
      exact ⟨hlen, hnd, hsub, hdone, Or.inr ⟨rfl,
        by show s.workers.length ≤ k + 1; omega⟩⟩
    | cons p rest =>
      obtain ⟨u, d⟩ := p
      dsimp only
      by_cases hm : s.results.length < cfg.maxPages
      · rw [if_pos hm]
        have hwk : ({ s with
            queue := rest
            workers := s.workers ++ [(⟨u, d, WStep.checkResults⟩ : Worker)] } :
            CState).workers.get? k = some ⟨u, d, WStep.checkResults⟩ := by
          show (s.workers ++ [(⟨u, d, WStep.checkResults⟩ : Worker)]).get? k = _
          rw [← hk]
          exact List.get?_concat_length s.workers _
        rw [run8_eq cfg _ k u d hwk]
        obtain ⟨hres, hvis, hwork⟩ := execWorker_spec cfg { s with
          queue := rest
          workers := s.workers ++ [(⟨u, d, WStep.checkResults⟩ : Worker)] } k u d
        have hdone2 : allDone (execWorker cfg { s with
            queue := rest
            workers := s.workers ++ [(⟨u, d, WStep.checkResults⟩ : Worker)] } k u d) := by
          intro j w hjw
          rw [hwork] at hjw
          by_cases hjk : j = k
          · subst hjk
            rw [get?_set_self _ j _ (by
              show j < (s.workers ++ [(⟨u, d, WStep.checkResults⟩ : Worker)]).length
              simp [hk])] at hjw
            cases hjw; rfl
          · rw [get?_set_ne _ k j _ (fun he => hjk he.symm)] at hjw
            have hj2 : j < (s.workers ++
                [(⟨u, d, WStep.checkResults⟩ : Worker)]).length :=
              get?_lt _ j w hjw
            have hjlt : j < s.workers.length := by
              simp at hj2; omega
            rw [List.get?_append hjlt] at hjw
            exact hdone j w hjw
        have hcount : (execWorker cfg { s with
            queue := rest
            workers := s.workers ++ [(⟨u, d, WStep.checkResults⟩ : Worker)] } k u
            d).workers.length = k + 1 := by
          rw [hwork]
          simp [hk]
        rcases hres with heq | ⟨r, happ, hurl, hlt, hnotv, hinvis⟩
        · refine ⟨?_, ?_, ?_, hdone2, Or.inl hcount⟩
          · rw [heq]; exact hlen
          · rw [heq]; exact hnd
          · intro r2 h2
            rw [heq] at h2
            exact hvis r2.url (hsub r2 h2)
        · have hlt2 : s.results.length < cfg.maxPages := hlt
          have hnotv2 : u ∉ s.visited := hnotv
          have hnotres : r.url ∉ s.results.map CrawlResult.url := by
            rw [hurl]
            intro hmem
            obtain ⟨r2, hr2, hr2u⟩ := List.mem_map.mp hmem
            exact hnotv2 (hr2u ▸ hsub r2 hr2)
          refine ⟨?_, ?_, ?_, hdone2, Or.inl hcount⟩
          · rw [show (execWorker cfg { s with
                queue := rest
                workers := s.workers ++ [(⟨u, d, WStep.checkResults⟩ : Worker)] } k u
                d).results = s.results ++ [r] from happ, List.length_append]
            simpa using hlt2
          · rw [show (execWorker cfg { s with
                queue := rest
                workers := s.workers ++ [(⟨u, d, WStep.checkResults⟩ : Worker)] } k u
                d).results = s.results ++ [r] from happ, List.map_append]
            simp [List.nodup_append, hnd, hnotres]
          · intro r2 h2
            rw [show (execWorker cfg { s with
                queue := rest
                workers := s.workers ++ [(⟨u, d, WStep.checkResults⟩ : Worker)] } k u
                d).results = s.results ++ [r] from happ] at h2
            rcases List.mem_append.mp h2 with h3 | h3
            · exact hvis r2.url (hsub r2 h3)
            · simp at h3
              subst h3
              rw [hurl]
              exact hinvis
      · rw [if_neg hm]
        have hnone : ({ s with
            queue := (u, d) :: rest
            dispatcherActive := false } : CState).workers.get? k = none := by
          show s.workers.get? k = none
          exact List.get?_eq_none.mpr (le_of_eq hk)
        rw [run_oob cfg 8 _ k hnone]
        exact ⟨hlen, hnd, hsub, hdone, Or.inr ⟨rfl,
          by show s.workers.length ≤ k + 1; omega⟩⟩
  · rw [if_neg ha]
    have hle : s.workers.length ≤ k := by
      rcases hcnt with h | ⟨_, h⟩
      · exact le_of_eq h
      · exact h
    have hnone : s.workers.get? k = none := List.get?_eq_none.mpr hle
    rw [run_oob cfg 8 s k hnone]
    refine ⟨hlen, hnd, hsub, hdone, Or.inr ⟨?_, by omega⟩⟩
    exact Bool.not_eq_true s.dispatcherActive ▸ ha

theorem seqSched_succ (k : Nat) :
    seqSched (k + 1) = seqSched k ++ seqBlock k := by
  simp [seqSched, List.range_succ]

theorem run_append (cfg : CrawlCfg) (s : CState)
    (l1 l2 : List (Option Nat)) :
    run cfg s (l1 ++ l2) = run cfg (run cfg s l1) l2 :=
  List.foldl_append (step cfg) s l1 l2

theorem seqInv_start (cfg : CrawlCfg) (raw : String) :
    SeqInv cfg 0 (initState raw) := by
  refine ⟨by simp [initState], by simp [initState], ?_, ?_, Or.inl rfl⟩
  · intro r hr
    simp [initState] at hr
  · intro j w hjw
    simp [initState] at hjw

theorem seqInv_run (cfg : CrawlCfg) (raw : String) :
    ∀ k, SeqInv cfg k (crawlRun cfg raw (seqSched k)) := by
  intro k
  induction k with
  | zero => exact seqInv_start cfg raw
  | succ m ih =>
    show SeqInv cfg (m + 1) (run cfg (initState raw) (seqSched (m + 1)))
    rw [seqSched_succ, run_append]
    exact seqInv_block cfg m (run cfg (initState raw) (seqSched m)) ih

/-- C3 amended: when every dispatched job runs to completion before the next
    scheduled move (serialized execution), the crawl collects at most
    max_pages results; the unsynchronized gate makes the bound violable only
    under interleaving. -/
theorem c3_results_bounded (cfg : CrawlCfg) (raw : String) (k : Nat) :
    (crawlRun cfg raw (seqSched k)).results.length ≤ cfg.maxPages :=
  (seqInv_run cfg raw k).1

/-- C4 amended: under serialized execution each distinct URL yields at most
    one CrawlResult — the insert is atomic, but the membership check runs
    before the lock, so only interleaving can duplicate a URL. -/
theorem c4_distinct_urls (cfg : CrawlCfg) (raw : String) (k : Nat) :
    ((crawlRun cfg raw (seqSched k)).results.map CrawlResult.url).Nodup :=
  (seqInv_run cfg raw k).2.1

/-! ## Rate limiter (crawler.py, _wait_for_host, lines 70-78)

_wait_for_host holds self._lock for its whole body — the sleep included —
so concurrent calls execute one after another, whatever their hosts. A call
has a host and an arrival time (when the worker reaches the lock); it starts
at the later of its arrival and the previous call's completion, sleeps
max(0, per_host_delay - (now - last[host])), and records the post-sleep
clock as the host's last-request time. -/

structure RLState where
  now : ℤ
  hostLast : List (String × ℤ)

/-- self._host_last.get(host, 0) -/
def lookupHost (m : List (String × ℤ)) (h : String) : ℤ :=
  match m.find? (fun e => e.1 = h) with
  | some e => e.2
  | none => 0

/-- self._host_last[host] = t -/
def updateHost (m : List (String × ℤ)) (h : String) (t : ℤ) :
    List (String × ℤ) :=
  (h, t) :: m.filter (fun e => e.1 ≠ h)

/-- One _wait_for_host call under the global lock: the second component is
    the recorded request-start timestamp (time.time() after the sleep). -/
def waitForHost (delay : ℤ) (s : RLState) (host : String) (arrival : ℤ) :
    RLState × ℤ :=
  let start := max s.now arrival
  let last := lookupHost s.hostLast host
  let wait := delay - (start - last)
  let fin := if wait > 0 then start + wait else start
  ({ now := fin, hostLast := updateHost s.hostLast host fin }, fin)

/-- A sequence of _wait_for_host calls as the single lock serializes them:
    per call, the host, its arrival time, and its recorded timestamp. -/
def runRL (delay : ℤ) : RLState → List (String × ℤ) →
    List (String × ℤ × ℤ)
  | _, [] => []
  | s, (h, a) :: rest =>
    (h, a, (waitForHost delay s h a).2) ::
      runRL delay (waitForHost delay s h a).1 rest

/-- Modelled from the claim's words (C9): calls for different hosts are not
    serialized against each other, so a call starts at its own arrival time
    and blocks only on its own host's last-request timestamp. -/
def waitForHostIndep (delay : ℤ) (s : RLState) (host : String) (arrival : ℤ) :
    RLState × ℤ :=
  let last := lookupHost s.hostLast host
  let wait := delay - (arrival - last)
  let fin := if wait > 0 then arrival + wait else arrival
  ({ now := fin, hostLast := updateHost s.hostLast host fin }, fin)

def runRLIndep (delay : ℤ) : RLState → List (String × ℤ) →
    List (String × ℤ × ℤ)
  | _, [] => []
  | s, (h, a) :: rest =>
    (h, a, (waitForHostIndep delay s h a).2) ::
      runRLIndep delay (waitForHostIndep delay s h a).1 rest

theorem lookup_update_self (m : List (String × ℤ)) (h : String) (t : ℤ) :
    lookupHost (updateHost m h t) h = t := by
  simp [lookupHost, updateHost]

theorem find_filter_ne (h h2 : String) (hne : h2 ≠ h) :
    ∀ (m : List (String × ℤ)),
      List.find? (fun e => e.1 = h2) (m.filter (fun e => e.1 ≠ h))
        = List.find? (fun e => e.1 = h2) m := by
  intro m
  induction m with
  | nil => rfl
  | cons e rest ih =>
    by_cases he : e.1 = h
    · rw [show (e :: rest).filter (fun e => e.1 ≠ h)
          = rest.filter (fun e => e.1 ≠ h) from by simp [List.filter_cons, he]]
      rw [ih, List.find?_cons_of_neg _ (by
        simp only [he, decide_eq_true_eq]
        exact fun hc => hne hc.symm)]
    · rw [show (e :: rest).filter (fun e => e.1 ≠ h)
          = e :: rest.filter (fun e => e.1 ≠ h) from by
        simp [List.filter_cons, he]]
      by_cases hp : e.1 = h2
      · rw [List.find?_cons_of_pos _ (by simp [hp]),
          List.find?_cons_of_pos _ (by simp [hp])]
      · rw [List.find?_cons_of_neg _ (by simp [hp]),
          List.find?_cons_of_neg _ (by simp [hp]), ih]

theorem lookup_update_ne (m : List (String × ℤ)) (h : String) (t : ℤ)
    (h2 : String) (hne : h2 ≠ h) :
    lookupHost (updateHost m h t) h2 = lookupHost m h2 := by
  unfold lookupHost updateHost
  rw [List.find?_cons_of_neg _ (by simp [Ne.symm hne]), find_filter_ne h h2 hne]

theorem waitForHost_hostLast (delay : ℤ) (s : RLState) (h : String) (a : ℤ) :
    (waitForHost delay s h a).1.hostLast
      = updateHost s.hostLast h ((waitForHost delay s h a).2) := rfl

/-- The recorded stamp of a call is at least the host's previous recorded
    time plus the delay. -/
theorem waitForHost_stamp (delay : ℤ) (s : RLState) (h : String) (a : ℤ) :
    lookupHost s.hostLast h + delay ≤ (waitForHost delay s h a).2 := by
  unfold waitForHost
  dsimp only
  by_cases hw : delay - (max s.now a - lookupHost s.hostLast h) > 0
  · rw [if_pos hw]
    linarith
  · rw [if_neg hw]
    push_neg at hw
    linarith

/-- The per-host recorded time never decreases across a call. -/
theorem waitForHost_mono (delay : ℤ) (hd : 0 ≤ delay) (s : RLState)
    (h : String) (a : ℤ) (h2 : String) :
    lookupHost s.hostLast h2
      ≤ lookupHost (waitForHost delay s h a).1.hostLast h2 := by
  by_cases he : h2 = h
  · subst he
    have := waitForHost_stamp delay s h2 a
    rw [waitForHost_hostLast, lookup_update_self]
    linarith
  · rw [waitForHost_hostLast, lookup_update_ne _ _ _ _ he]

/-- Every stamp a run produces is bounded below by the starting state's
    record for its host, plus the delay. -/
theorem runRL_lower (delay : ℤ) (hd : 0 ≤ delay) :
    ∀ (calls : List (String × ℤ)) (s : RLState),
      ∀ y ∈ runRL delay s calls,
        lookupHost s.hostLast y.1 + delay ≤ y.2.2 := by
  intro calls
  induction calls with
  | nil => intro s y hy; simp [runRL] at hy
  | cons c rest ih =>
    intro s y hy
    obtain ⟨h, a⟩ := c
    rw [show runRL delay s ((h, a) :: rest)
        = (h, a, (waitForHost delay s h a).2) ::
          runRL delay (waitForHost delay s h a).1 rest from rfl] at hy
    rcases List.mem_cons.mp hy with rfl | hmem
    · exact waitForHost_stamp delay s h a
    · have h1 := ih (waitForHost delay s h a).1 y hmem
      have h2 := waitForHost_mono delay hd s h a y.1
      linarith

/-- C9 amended: _wait_for_host sleeps while holding the crawler's single
    lock, so every call — whatever its host — runs serialized after the
    previous one; under that semantics any two same-host calls record
    timestamps at least per_host_delay apart (so in particular any two
    consecutive ones do). -/
theorem c9_min_gap (delay : ℤ) (hd : 0 ≤ delay) (now0 : ℤ)
    (calls : List (String × ℤ)) :
    List.Pairwise (fun x y => x.1 = y.1 → x.2.2 + delay ≤ y.2.2)
      (runRL delay ⟨now0, []⟩ calls) := by
  suffices hgen : ∀ (cs : List (String × ℤ)) (s : RLState),
      List.Pairwise (fun x y => x.1 = y.1 → x.2.2 + delay ≤ y.2.2)
        (runRL delay s cs) from hgen calls ⟨now0, []⟩
  intro cs
  induction cs with
  | nil => intro s; simp [runRL]
  | cons c rest ih =>
    intro s
    obtain ⟨h, a⟩ := c
    rw [show runRL delay s ((h, a) :: rest)
        = (h, a, (waitForHost delay s h a).2) ::
          runRL delay (waitForHost delay s h a).1 rest from rfl]
    refine List.Pairwise.cons ?_ (ih _)
    intro y hy heq
    have heq2 : h = y.1 := heq
    have h1 := runRL_lower delay hd rest (waitForHost delay s h a).1 y hy
    rw [waitForHost_hostLast, ← heq2, lookup_update_self] at h1
    exact h1

/-- Witness for the amended C9 at a concrete delay, clock and trace. -/
theorem c9_min_gap_witness :
    List.Pairwise (fun x y => x.1 = y.1 → x.2.2 + 1 ≤ y.2.2)
      (runRL 1 ⟨1000, []⟩ [("A", 1000), ("A", 1000), ("B", 1000)]) :=
  c9_min_gap 1 (by norm_num) 1000 [("A", 1000), ("A", 1000), ("B", 1000)]

/-- C9 fails as stated: the sleep happens while the single crawler lock is
    held, so a first-ever call for host B arriving during host A's backoff
    sleep completes only when the lock frees (stamp 1001), not at its own
    arrival time 1000 as the unserialized reading predicts — calls for
    different hosts are serialized against each other. -/
theorem c9_counterexample :
    (runRL 1 ⟨1000, []⟩
        [("A", 1000), ("A", 1000), ("B", 1000)]).map (fun x => x.2.2)
      = [1000, 1001, 1001] ∧
    (runRLIndep 1 ⟨1000, []⟩
        [("A", 1000), ("A", 1000), ("B", 1000)]).map (fun x => x.2.2)
      = [1000, 1001, 1000] := by
  decide

end WebDl
